import Mathlib

/-!
Verification development for the skill refinement loop
(`demo-container/skill-refine-loop.py`).

The Python source is shallowly embedded: pure computations become Lean
functions over `List Char` / `String`, JSON values become the inductive
`JVal`, and the external collaborators (the docker test subprocess and the
fix-agent subprocess) are modelled as explicit outcome values that the
embedded control logic consumes.  Machine integers do not occur in the
source (Python integers are unbounded), so `Nat`/`Int` are used directly.
-/

/-! ## Basic string helpers (Python string primitives used by the source) -/

/-- The character `"` (written via its code point to keep literals simple). -/
def quoteChar : Char := Char.ofNat 34

/-- The character `\`. -/
def backslashChar : Char := Char.ofNat 92

/-- The character `{`. -/
def braceOpenChar : Char := Char.ofNat 123

/-- The character `}`. -/
def braceCloseChar : Char := Char.ofNat 125

/-- Python `s.strip()`: remove whitespace from both ends.  (Modelled with
Lean's `Char.isWhitespace`, which covers the ASCII whitespace that occurs
in subprocess output.) -/
def pyStrip (s : String) : String :=
  String.mk (((s.data.dropWhile (·.isWhitespace)).reverse.dropWhile (·.isWhitespace)).reverse)

/-- Python `s[:n]` on a string: the first `n` characters. -/
def pyTake (n : Nat) (s : String) : String :=
  String.mk (s.data.take n)

/-- Python `s[-n:]` on a string: the last `n` characters. -/
def pyTakeRight (n : Nat) (s : String) : String :=
  String.mk (s.data.drop (s.data.length - n))

/-- Concatenation of a list of strings, in order (models repeated `+=`). -/
def strConcat : List String → String
  | [] => ""
  | s :: ss => s ++ strConcat ss

/-! ## JSON values and a model of Python `json.loads`

`JVal` models the values produced by `json.loads`: JSON numbers are
restricted to integers (no scenario in the source or the claims involves
floating point, which is outside the embedding). -/

/-- A parsed JSON value, as produced by Python's `json.loads`. -/
inductive JVal where
  | null
  | bool (b : Bool)
  | num (n : Int)
  | str (s : String)
  | arr (elems : List JVal)
  | obj (fields : List (String × JVal))

/-- Hexadecimal digit value, for `\uXXXX` escapes. -/
def hexVal (c : Char) : Option Nat :=
  if c.isDigit then some (c.toNat - 48)
  else if 97 ≤ c.toNat ∧ c.toNat ≤ 102 then some (c.toNat - 87)
  else if 65 ≤ c.toNat ∧ c.toNat ≤ 70 then some (c.toNat - 55)
  else none

/-- Single-character JSON string escapes. -/
def escChar (c : Char) : Option Char :=
  if c = quoteChar then some quoteChar
  else if c = backslashChar then some backslashChar
  else if c = '/' then some '/'
  else if c = 'n' then some (Char.ofNat 10)
  else if c = 't' then some (Char.ofNat 9)
  else if c = 'r' then some (Char.ofNat 13)
  else if c = 'b' then some (Char.ofNat 8)
  else if c = 'f' then some (Char.ofNat 12)
  else none

/-- Parse the body of a JSON string (the part after the opening quote),
returning the decoded characters and the rest of the input after the
closing quote. -/
def parseStrBody : List Char → Option (List Char × List Char)
  | [] => none
  | c :: cs =>
    if c = quoteChar then some ([], cs)
    else if c = backslashChar then
      match cs with
      | [] => none
      | e :: cs2 =>
        if e = 'u' then
          match cs2 with
          | h1 :: h2 :: h3 :: h4 :: cs3 =>
            match hexVal h1, hexVal h2, hexVal h3, hexVal h4 with
            | some a, some b, some c3, some d =>
              match parseStrBody cs3 with
              | some (out, rest) => some (Char.ofNat (((a * 16 + b) * 16 + c3) * 16 + d) :: out, rest)
              | none => none
            | _, _, _, _ => none
          | _ => none
        else
          match escChar e with
          | some ec =>
            match parseStrBody cs2 with
            | some (out, rest) => some (ec :: out, rest)
            | none => none
          | none => none
    else if c.toNat < 32 then none
    else
      match parseStrBody cs with
      | some (out, rest) => some (c :: out, rest)
      | none => none

/-- Decimal digits to a natural number. -/
def digitsToNat (ds : List Char) : Nat :=
  ds.foldl (fun acc c => acc * 10 + (c.toNat - 48)) 0

/-- Parse a JSON integer token (sign and digits; a fraction or exponent
makes the parse fail, since the embedding excludes floats). -/
def parseNumTok (cs : List Char) : Option (Int × List Char) :=
  let (neg, cs1) :=
    match cs with
    | c :: rest => if c = '-' then (true, rest) else (false, cs)
    | [] => (false, cs)
  let digits := cs1.takeWhile (·.isDigit)
  let rest := cs1.dropWhile (·.isDigit)
  if digits = [] then none
  else if 1 < digits.length ∧ digits.headD ' ' = '0' then none
  else
    match rest with
    | r :: _ =>
      if r = '.' ∨ r = 'e' ∨ r = 'E' then none
      else some (if neg then -(digitsToNat digits : Int) else (digitsToNat digits : Int), rest)
    | [] => some (if neg then -(digitsToNat digits : Int) else (digitsToNat digits : Int), rest)

/-- Match a literal keyword (`true`, `false`, `null`). -/
def chopLit : List Char → List Char → Option (List Char)
  | [], cs => some cs
  | l :: ls, c :: cs => if c = l then chopLit ls cs else none
  | _ :: _, [] => none

/-- Parser modes: a whole value, the inside of an object (after `{`),
a nonempty member list, the inside of an array (after `[`), a nonempty
element list. -/
inductive PMode where
  | val
  | objBody
  | members
  | arrBody
  | elems

/-- Intermediate parser results for the different modes. -/
inductive ParseOut where
  | v (x : JVal)
  | ms (x : List (String × JVal))
  | es (x : List JVal)

/-- Fuel-indexed recursive-descent JSON parser (all modes in one function
so that recursion is structural on the fuel and evaluates by `rfl`). -/
def parseCore : Nat → PMode → List Char → Option (ParseOut × List Char)
  | 0, _, _ => none
  | fuel + 1, PMode.val, cs =>
    match cs.dropWhile (·.isWhitespace) with
    | [] => none
    | c :: rest =>
      if c = quoteChar then
        match parseStrBody rest with
        | some (out, r) => some (ParseOut.v (JVal.str (String.mk out)), r)
        | none => none
      else if c = braceOpenChar then parseCore fuel PMode.objBody rest
      else if c = '[' then parseCore fuel PMode.arrBody rest
      else if c = 't' then
        match chopLit ['r', 'u', 'e'] rest with
        | some r => some (ParseOut.v (JVal.bool true), r)
        | none => none
      else if c = 'f' then
        match chopLit ['a', 'l', 's', 'e'] rest with
        | some r => some (ParseOut.v (JVal.bool false), r)
        | none => none
      else if c = 'n' then
        match chopLit ['u', 'l', 'l'] rest with
        | some r => some (ParseOut.v JVal.null, r)
        | none => none
      else
        match parseNumTok (c :: rest) with
        | some (n, r) => some (ParseOut.v (JVal.num n), r)
        | none => none
  | fuel + 1, PMode.objBody, cs =>
    match cs.dropWhile (·.isWhitespace) with
    | [] => none
    | c :: rest =>
      if c = braceCloseChar then some (ParseOut.v (JVal.obj []), rest)
      else
        match parseCore fuel PMode.members (c :: rest) with
        | some (ParseOut.ms ms, r) => some (ParseOut.v (JVal.obj ms), r)
        | _ => none
  | fuel + 1, PMode.members, cs =>
    match cs.dropWhile (·.isWhitespace) with
    | [] => none
    | c :: rest =>
      if c = quoteChar then
        match parseStrBody rest with
        | some (key, r1) =>
          match r1.dropWhile (·.isWhitespace) with
          | c2 :: r3 =>
            if c2 = ':' then
              match parseCore fuel PMode.val r3 with
              | some (ParseOut.v v, r4) =>
                match r4.dropWhile (·.isWhitespace) with
                | c3 :: r6 =>
                  if c3 = ',' then
                    match parseCore fuel PMode.members r6 with
                    | some (ParseOut.ms ms, r7) => some (ParseOut.ms ((String.mk key, v) :: ms), r7)
                    | _ => none
                  else if c3 = braceCloseChar then some (ParseOut.ms [(String.mk key, v)], r6)
                  else none
                | [] => none
              | _ => none
            else none
          | [] => none
        | none => none
      else none
  | fuel + 1, PMode.arrBody, cs =>
    match cs.dropWhile (·.isWhitespace) with
    | [] => none
    | c :: rest =>
      if c = ']' then some (ParseOut.v (JVal.arr []), rest)
      else
        match parseCore fuel PMode.elems (c :: rest) with
        | some (ParseOut.es es, r) => some (ParseOut.v (JVal.arr es), r)
        | _ => none
  | fuel + 1, PMode.elems, cs =>
    match parseCore fuel PMode.val cs with
    | some (ParseOut.v v, r1) =>
      match r1.dropWhile (·.isWhitespace) with
      | c :: r2 =>
        if c = ',' then
          match parseCore fuel PMode.elems r2 with
          | some (ParseOut.es es, r3) => some (ParseOut.es (v :: es), r3)
          | _ => none
        else if c = ']' then some (ParseOut.es [v], r2)
        else none
      | [] => none
    | _ => none

/-- Model of Python `json.loads`: parse one JSON value and require that
only whitespace remains (otherwise `json.loads` raises "Extra data",
which the callers in the source treat as a parse failure). -/
def json_loads (s : String) : Option JVal :=
  match parseCore (3 * s.data.length + 8) PMode.val s.data with
  | some (ParseOut.v v, rest) => if rest.dropWhile (·.isWhitespace) = [] then some v else none
  | _ => none

/-- Python `d.get(key)` for a dict built by `json.loads`: the value of the
last occurrence of the key, if present. -/
def jget (fields : List (String × JVal)) (key : String) : Option JVal :=
  fields.foldl (fun acc kv => if kv.1 == key then some kv.2 else acc) none

/-- The test `ctx.get("status") == "all_passed"` from `run_skill_test`. -/
def statusAllPassed (fields : List (String × JVal)) : Bool :=
  match jget fields "status" with
  | some (JVal.str s) => s == "all_passed"
  | _ => false

/-- Python `stdout.find("{")` followed by taking `stdout[brace_idx:]`:
the suffix of the string starting at the first `{`, if any. -/
def firstBraceSuffix (s : String) : Option String :=
  match s.data.dropWhile (fun c => c != braceOpenChar) with
  | [] => none
  | c :: rest => some (String.mk (c :: rest))

/-- The fix-context output parsing of `run_skill_test`
(`skill-refine-loop.py` lines 250–283): strip the captured stdout, try to
parse the whole text as JSON and use the result if it is a dict (pass
signal when `status == "all_passed"`); otherwise locate the first `{` and
try the suffix from there; otherwise report failure with no context.
Returns the `(all_passed, fix_context | None)` pair the source returns. -/
def parse_fix_context (stdoutRaw : String) : Bool × Option JVal :=
  match json_loads (pyStrip stdoutRaw) with
  | some (JVal.obj fs) =>
    if statusAllPassed fs then (true, none) else (false, some (JVal.obj fs))
  | _ =>
    match firstBraceSuffix (pyStrip stdoutRaw) with
    | some sub =>
      match json_loads sub with
      | some (JVal.obj fs) =>
        if statusAllPassed fs then (true, none) else (false, some (JVal.obj fs))
      | _ => (false, none)
    | none => (false, none)

/-- The spec's `extractJson` strategy, taken literally from its words
(§4.5): (a) parse the entire trimmed text as JSON; (b) on failure, parse
the substring starting at the first `{`; (c) on failure, null.  Used to
compare the spec's description with the source's behaviour. -/
def specExtractJson (raw : String) : Option JVal :=
  match json_loads (pyStrip raw) with
  | some v => some v
  | none =>
    match firstBraceSuffix (pyStrip raw) with
    | some sub => json_loads sub
    | none => none

/-- The amended extraction strategy: like `specExtractJson`, but a parse
result is used only when it is a JSON object; a whole-text parse that
yields a non-object falls through to the first-`{` suffix attempt. -/
def extractJsonObj (raw : String) : Option JVal :=
  match json_loads (pyStrip raw) with
  | some (JVal.obj fs) => some (JVal.obj fs)
  | _ =>
    match firstBraceSuffix (pyStrip raw) with
    | some sub =>
      match json_loads sub with
      | some (JVal.obj fs) => some (JVal.obj fs)
      | _ => none
    | none => none

/-! ## The refinement loop (`run_refinement_loop`, lines 471–595)

The two subprocess collaborators are modelled as oracles indexed by the
attempt number: `exec` gives the `(all_passed, fix_context)` pair that
`run_skill_test` returns for that attempt, and `fix` gives the dict that
`run_fix_agent` returns for that attempt.  Because the loop visits
attempts `1, 2, …` strictly in order, indexing the oracles by the attempt
number loses no generality.  The loop additionally emits a trace of its
calls to the two collaborators so that the claims about invocation
arguments can be stated. -/

/-- The fields of a truthy fix-context dict (with a well-formed `failure`
record, as produced by `skill-test.py`).  `prompt_index` models
`failure.get("prompt_index")` (absent key ↦ `none`);
`refinement_suggestion` models `failure.get("refinement_suggestion", "")`.
The two `*_assertions` fields carry the `json.dumps(..., indent=2)`
renderings as strings; `tools_called` carries its f-string rendering. -/
structure FixCtx where
  prompt_index : Option Int
  prompt_text : String
  tools_called : String
  tool_assertions : String
  text_assertions : String
  quality : String
  tool_accuracy : String
  reasoning : String
  refinement_suggestion : String
  relevant_files : List (String × String)
  git_history : List (String × String)

/-- The dict returned by `run_fix_agent`
(`{"success", "files_changed", "summary", "session_id"}`); the
`session_id` value originates from JSON and may be null (`none`). -/
structure FixResult where
  success : Bool
  files_changed : List String
  summary : String
  session_id : Option JVal

/-- One `run_skill_test` outcome as seen by the loop: `all_passed` and the
fix context (`none` models both Python `None` and a falsy empty dict). -/
structure ExecOutcome where
  allPassed : Bool
  fixCtx : Option FixCtx

/-- The environment of one refinement run: what the executor and the fix
agent return on each attempt. -/
structure LoopEnv where
  exec : Nat → ExecOutcome
  fix : Nat → FixResult

/-- One entry of `attempt_history` (lines 577–582). -/
structure AttemptRec where
  attempt : Nat
  files : List String
  result : String
  error_summary : String
  deriving DecidableEq

/-- The loop's mutable state (lines 508–510). -/
structure LoopState where
  fixSessionId : Option JVal
  attemptHistory : List AttemptRec
  lastFailingPromptIndex : Option Int

/-- Trace events: one `execCall` per `run_skill_test` invocation (recording
the state's last failing prompt index at call time and the `fork_from` /
`prompt_index` arguments), and one `fixCall` per `run_fix_agent`
invocation (recording the `session_id` and `attempt_history` arguments). -/
inductive Event where
  | execCall (attempt : Nat) (lastIdx : Option Int) (forkFrom : Option Int) (promptIndex : Option Int)
  | fixCall (attempt : Nat) (sessionId : Option JVal) (history : List AttemptRec)

/-- The fork computation at the top of each attempt (lines 516–527):
`fork_from` and `prompt_index` both start as `None`; when `attempt > 1`
and the last failing index `k` is known, they become `k - 1` and `k` if
`k > 0`, else `prompt_index = 0`. -/
def forkArgs (attempt : Nat) (lastFailing : Option Int) : Option Int × Option Int :=
  if 1 < attempt then
    match lastFailing with
    | some k => if 0 < k then (some (k - 1), some k) else (none, some 0)
    | none => (none, none)
  else (none, none)

/-- The body of `run_refinement_loop`'s `for attempt in range(1, max_attempts + 1)`
loop, with `remaining` attempts left and the current attempt number:
run the test (emitting an `execCall` event); on full success return `True`;
on failure without context just continue (lines 552–554); on failure with
context update `last_failing_prompt_index` (line 557), invoke the fix agent
with the current session id and history (emitting a `fixCall` event,
lines 567–573), update the session id from the result (line 575), append
an `AttemptRec` (lines 577–582), and continue.  After the loop, return
`False`. -/
def loopGo (env : LoopEnv) : Nat → Nat → LoopState → Bool × List Event
  | 0, _, _ => (false, [])
  | remaining + 1, attempt, s =>
    let fp := forkArgs attempt s.lastFailingPromptIndex
    let ev := Event.execCall attempt s.lastFailingPromptIndex fp.1 fp.2
    let out := env.exec attempt
    if out.allPassed then (true, [ev])
    else
      match out.fixCtx with
      | none =>
        let rest := loopGo env remaining (attempt + 1) s
        (rest.1, ev :: rest.2)
      | some c =>
        let fev := Event.fixCall attempt s.fixSessionId s.attemptHistory
        let fr := env.fix attempt
        let s2 : LoopState :=
          ⟨fr.session_id,
           s.attemptHistory ++
             [⟨attempt, fr.files_changed, "still failing", pyTake 100 c.refinement_suggestion⟩],
           c.prompt_index⟩
        let rest := loopGo env remaining (attempt + 1) s2
        (rest.1, ev :: fev :: rest.2)

/-- `run_refinement_loop`: starts at attempt 1 with no session id, empty
history and unknown last failing index; returns the overall result and
the trace of collaborator invocations. -/
def run_refinement_loop (env : LoopEnv) (max_attempts : Nat) : Bool × List Event :=
  loopGo env max_attempts 1 ⟨none, [], none⟩

/-! ### Expected state after a prefix of attempts

These functions restate, by plain recursion on the attempt number, what
the loop's state components are after the first `a` attempts (assuming no
earlier attempt succeeded; when an attempt succeeds the loop returns and
no later attempt exists, so the values are never consulted). -/

/-- Whether attempt `a` fails with a (truthy) fix context. -/
def ctxFail (env : LoopEnv) (a : Nat) : Bool :=
  match env.exec a with
  | ⟨false, some _⟩ => true
  | _ => false

/-- The recorded `last_failing_prompt_index` after attempt `a`: the
`prompt_index` of the most recent attempt `≤ a` that failed with context,
or `none` if there is none. -/
def idxAfter (env : LoopEnv) : Nat → Option Int
  | 0 => none
  | a + 1 =>
    match env.exec (a + 1) with
    | ⟨false, some c⟩ => c.prompt_index
    | _ => idxAfter env a

/-- The fix session id after attempt `a`: the `session_id` returned by the
most recent fix invocation `≤ a`, or `none` if there was none. -/
def sidAfter (env : LoopEnv) : Nat → Option JVal
  | 0 => none
  | a + 1 =>
    match env.exec (a + 1) with
    | ⟨false, some _⟩ => (env.fix (a + 1)).session_id
    | _ => sidAfter env a

/-- The `AttemptRec` appended for a context-failing attempt `a`. -/
def recOf (env : LoopEnv) (a : Nat) (c : FixCtx) : AttemptRec :=
  ⟨a, (env.fix a).files_changed, "still failing", pyTake 100 c.refinement_suggestion⟩

/-- The attempt history after attempt `a`: one record per attempt `≤ a`
that failed with context, in order. -/
def histAfter (env : LoopEnv) : Nat → List AttemptRec
  | 0 => []
  | a + 1 =>
    match env.exec (a + 1) with
    | ⟨false, some c⟩ => histAfter env a ++ [recOf env (a + 1) c]
    | _ => histAfter env a

/-- Number of executor invocations (loop iterations) in a trace. -/
def execCount (tr : List Event) : Nat :=
  tr.countP fun e => match e with | Event.execCall _ _ _ _ => true | _ => false

/-- The fix-agent invocations of a trace, in order, with their arguments. -/
def fixCalls (tr : List Event) : List (Nat × Option JVal × List AttemptRec) :=
  tr.filterMap fun e =>
    match e with
    | Event.fixCall b sid h => some (b, sid, h)
    | _ => none

/-- Whether some fix invocation in the trace received a history entry for
attempt `a` (used to express "a degraded attempt was recorded"). -/
def historiesMention (tr : List Event) (a : Nat) : Bool :=
  tr.any fun e =>
    match e with
    | Event.fixCall _ _ h => h.any fun r => r.attempt == a
    | _ => false

/-- Whether the trace contains a fix invocation for attempt `a`. -/
def hasFixCallFor (tr : List Event) (a : Nat) : Bool :=
  tr.any fun e =>
    match e with
    | Event.fixCall b _ _ => b == a
    | _ => false

/-- Whether the trace contains an executor invocation for attempt `a`. -/
def hasExecCallFor (tr : List Event) (a : Nat) : Bool :=
  tr.any fun e =>
    match e with
    | Event.execCall b _ _ _ => b == a
    | _ => false

/-! ## Platform configuration (lines 38–98) -/

/-- The per-platform entries of `PLATFORM_CONFIG` used by the modelled
code paths. -/
structure PlatformCfg where
  skills_path_env : String
  default_subdir : String
  plugin_name : String
  lib_name : String
  lib_package : String
  env_vars : List String

/-- `PLATFORM_CONFIG.get(p)`. -/
def PLATFORM_CONFIG (p : String) : Option PlatformCfg :=
  if p == "confluence" then
    some ⟨"CONFLUENCE_SKILLS_PATH", "Confluence-Assistant-Skills", "confluence-assistant-skills",
      "confluence-as", "confluence_as", ["CONFLUENCE_API_TOKEN", "CONFLUENCE_EMAIL", "CONFLUENCE_SITE_URL"]⟩
  else if p == "jira" then
    some ⟨"JIRA_SKILLS_PATH", "Jira-Assistant-Skills", "jira-assistant-skills",
      "jira-as", "jira_as", ["JIRA_API_TOKEN", "JIRA_EMAIL", "JIRA_SITE_URL"]⟩
  else if p == "splunk" then
    some ⟨"SPLUNK_SKILLS_PATH", "Splunk-Assistant-Skills", "splunk-assistant-skills",
      "splunk-as", "splunk_as", ["SPLUNK_URL", "SPLUNK_USERNAME", "SPLUNK_PASSWORD", "SPLUNK_HEC_TOKEN"]⟩
  else none

/-- `CROSS_PLATFORM_REQUIRED` (line 72). -/
def CROSS_PLATFORM_REQUIRED : List String := ["confluence", "jira", "splunk"]

/-- `get_required_platforms` (lines 94–98). -/
def get_required_platforms (platform : String) : List String :=
  if platform == "cross-platform" || platform == "all" then CROSS_PLATFORM_REQUIRED
  else [platform]

/-! ## The fix-agent prompt (`run_fix_agent`, lines 341–412) -/

/-- Python `repr` of a list of (quote-free) strings, as interpolated by
`f"Changed {h['files']}, "`. -/
def pyListRepr (xs : List String) : String :=
  "[" ++ String.intercalate ", " (xs.map fun s => "\x27" ++ s ++ "\x27") ++ "]"

/-- Python `str.title()` for the single lowercase words it is applied to
here (`confluence`, `jira`, `splunk`, `all`): upcase the first letter. -/
def platformTitleWord (s : String) : String :=
  match s.data with
  | [] => ""
  | c :: rest => String.mk (c.toUpper :: rest)

/-- `platform.title() if platform != "cross-platform" else "Cross-Platform"`
(line 342). -/
def platformName (platform : String) : String :=
  if platform == "cross-platform" then "Cross-Platform" else platformTitleWord platform

/-- The rendering of one `attempt_history` entry into the repair prompt
(lines 392–397). -/
def renderAttemptEntry (h : AttemptRec) : String :=
  "- Attempt " ++ toString h.attempt ++ ": "
    ++ (if h.files.isEmpty then "" else "Changed " ++ pyListRepr h.files ++ ", ")
    ++ "Result: " ++ h.result ++ "\n"
    ++ (if h.error_summary == "" then "" else "  Error: " ++ h.error_summary ++ "\n")

/-- The attempt-history section of the repair prompt (lines 388–397):
absent when the history is empty/None, otherwise a heading followed by
one rendered entry per record, in order. -/
def renderAttemptHistory (hs : List AttemptRec) : String :=
  if hs.isEmpty then ""
  else "\n## Previous Fix Attempts (this session)\n" ++ strConcat (hs.map renderAttemptEntry)

/-- The header of the repair prompt (lines 343–369), up to and including
the `## Relevant Files` heading. -/
def promptHeader (platform : String) (f : FixCtx) : String :=
  "You are a skill refinement agent. A " ++ platformName platform
    ++ " Assistant Skill test has failed and you need to fix it.\n\n## Failure Details\n\n**Prompt that failed:**\n"
    ++ f.prompt_text ++ "\n\n**Tools called:** " ++ f.tools_called
    ++ "\n\n**Tool Assertions:**\n" ++ f.tool_assertions
    ++ "\n\n**Text Assertions:**\n" ++ f.text_assertions
    ++ "\n\n**Quality Rating:** " ++ f.quality
    ++ "\n**Tool Accuracy:** " ++ f.tool_accuracy
    ++ "\n\n**Judge Reasoning:**\n" ++ f.reasoning
    ++ "\n\n**Refinement Suggestion:**\n" ++ f.refinement_suggestion
    ++ "\n\n## Relevant Files\n\n"

/-- The per-platform skill/library path lines (lines 371–376);
`skillsPathOf` models `get_skills_path` for the ambient environment. -/
def promptPlatformLines (skillsPathOf : String → String) (ps : List String) : String :=
  strConcat (ps.map fun p =>
    match PLATFORM_CONFIG p with
    | some cfg =>
      "**" ++ platformTitleWord p ++ " skill files:** " ++ skillsPathOf p ++ "/"
        ++ cfg.plugin_name ++ "/skills/\n"
        ++ "**" ++ platformTitleWord p ++ " library files:** " ++ skillsPathOf p ++ "/"
        ++ cfg.lib_name ++ "/src/" ++ cfg.lib_package ++ "/\n"
    | none => "")

/-- The relevant-file-contents section (lines 378–381): each file's
content capped at its first 3000 characters. -/
def promptFiles (f : FixCtx) : String :=
  "\nCurrent relevant file contents:\n"
    ++ strConcat (f.relevant_files.map fun pc =>
      "\n### " ++ pc.1 ++ "\n```\n" ++ pyTake 3000 pc.2 ++ "\n```\n")

/-- The git-history section (lines 383–386), absent when the list is
empty/falsy. -/
def promptGit (f : FixCtx) : String :=
  if f.git_history.isEmpty then ""
  else "\n## Recent Git History\n"
    ++ strConcat (f.git_history.map fun c => "- " ++ c.1 ++ ": " ++ c.2 ++ "\n")

/-- The closing task instructions (lines 399–412). -/
def promptTask : String :=
  "\n\n## Your Task\n\nAnalyze the failure and make targeted changes to fix it. Focus on:\n\n1. **If tool selection is wrong**: Update the skill description to better trigger on this type of query\n2. **If tool worked but output is wrong**: Check if the skill examples or instructions need improvement\n3. **If there\x27s an API error**: Check the library code for bugs\n\nMake minimal, focused changes. Edit the actual files - do not just describe what to change.\n\nAfter making changes, provide a brief summary of what you changed and why.\n"

/-- Everything of the repair prompt before the attempt-history section. -/
def promptPre (skillsPathOf : String → String) (platform : String) (f : FixCtx) : String :=
  promptHeader platform f ++ promptPlatformLines skillsPathOf (get_required_platforms platform)
    ++ promptFiles f ++ promptGit f

/-- The complete repair prompt built by `run_fix_agent` (lines 343–412). -/
def build_fix_prompt (skillsPathOf : String → String) (platform : String) (f : FixCtx)
    (attempt_history : List AttemptRec) : String :=
  promptPre skillsPathOf platform f ++ renderAttemptHistory attempt_history ++ promptTask

/-- Substring containment (Python's `t in s`). -/
def containsSubstr (s t : String) : Prop := ∃ x y, s = x ++ t ++ y

/-! ## The fix-agent invocation (`run_fix_agent`, lines 419–463) -/

/-- Outcome of a `subprocess.run` invocation: the hard timeout fired, the
invocation itself raised, or the process completed with captured stdout
and a return code. -/
inductive SubprocOutcome where
  | timeout
  | error (msg : String)
  | completed (stdout : String) (returncode : Int)

/-- Python exceptions that the modelled output-handling code can raise
(and does not catch). -/
inductive PyError where
  | attributeError (msg : String)
  | typeError (msg : String)

/-- `_parse_fix_agent_output` (lines 294–300): `json.loads` the output and
take its `session_id` (a JSON null maps to Python `None`); on
`JSONDecodeError` or a missing key, keep the default.  When the output is
valid JSON but not an object, `.get` raises `AttributeError`, which the
source does not catch. -/
def parse_fix_agent_output (output : String) (default_session_id : Option JVal) :
    Except PyError (Option JVal) :=
  match json_loads output with
  | none => Except.ok default_session_id
  | some (JVal.obj fs) =>
    Except.ok
      (match jget fs "session_id" with
       | none => default_session_id
       | some JVal.null => none
       | some v => some v)
  | some _ => Except.error (PyError.attributeError "no attribute get")

/-- The text of the `"text"`-typed blocks of a `content` list
(lines 310–313): a non-dict block makes `block.get` raise; a text block
whose `text` value is not a string makes `"\n".join` raise `TypeError`. -/
def blockTexts : List JVal → Except PyError (List String)
  | [] => Except.ok []
  | JVal.obj fs :: rest =>
    if (match jget fs "type" with
        | some (JVal.str t) => t == "text"
        | _ => false) then
      match jget fs "text" with
      | some (JVal.str s) =>
        match blockTexts rest with
        | Except.ok out => Except.ok (s :: out)
        | e => e
      | none =>
        match blockTexts rest with
        | Except.ok out => Except.ok ("" :: out)
        | e => e
      | some _ => Except.error (PyError.typeError "sequence item: expected str")
    else blockTexts rest
  | _ :: _ => Except.error (PyError.attributeError "no attribute get")

/-- `_extract_text_from_output` (lines 303–316): prefer a string `result`
field, else join the `"text"` blocks of a `content` list, else return the
raw output.  As in `_parse_fix_agent_output`, valid non-object JSON makes
`.get` raise. -/
def extract_text_from_output (output : String) : Except PyError String :=
  match json_loads output with
  | none => Except.ok output
  | some (JVal.obj fs) =>
    match jget fs "result" with
    | some (JVal.str s) => Except.ok s
    | _ =>
      match jget fs "content" with
      | some (JVal.arr blocks) =>
        match blockTexts blocks with
        | Except.ok ts => Except.ok (String.intercalate "\n" ts)
        | Except.error e => Except.error e
      | _ => Except.ok output
  | some _ => Except.error (PyError.attributeError "no attribute get")

/-- Bool prefix test on character lists. -/
def startsWithList : List Char → List Char → Bool
  | [], _ => true
  | _ :: _, [] => false
  | a :: as, b :: bs => a == b && startsWithList as bs

/-- Bool infix test on character lists. -/
def containsList (needle : List Char) : List Char → Bool
  | [] => needle.isEmpty
  | c :: cs => startsWithList needle (c :: cs) || containsList needle cs

/-- Bool substring containment used by the file-change heuristic. -/
def strContainsB (hay needle : String) : Bool :=
  containsList needle.data hay.data

/-- The condition guarding file-change detection (line 454):
`"Edit" in output or "edited" in output.lower() or "updated" in output.lower()`. -/
def editIndicator (output : String) : Bool :=
  strContainsB output "Edit" || strContainsB output.toLower "edited"
    || strContainsB output.toLower "updated"

/-- The executor's hard wall-clock timeout in seconds
(`run_skill_test`, line 241). -/
def executor_timeout_seconds : Nat := 600

/-- The fix agent's hard timeout in seconds (`run_fix_agent`, line 439). -/
def fix_agent_timeout_seconds : Nat := 300

/-- `run_fix_agent` after the prompt is built (lines 434–463), as a
function of the caller's `session_id` and the subprocess outcome.
`detect_files` abstracts `list(set(re.findall(...)))` (line 455), whose
result order Python leaves unspecified; it is only consulted when
`editIndicator` holds.  Timeouts and invocation errors are caught and
produce a failure `FixResult` that preserves the session id; output
handling can raise (uncaught) `AttributeError` for valid non-object JSON
output. -/
def run_fix_agent (detect_files : String → List String) (session_id : Option JVal)
    (outcome : SubprocOutcome) : Except PyError FixResult :=
  match outcome with
  | SubprocOutcome.timeout =>
    Except.ok ⟨false, [], "Fix agent timed out", session_id⟩
  | SubprocOutcome.error e =>
    Except.ok ⟨false, [], "Fix agent error: " ++ e, session_id⟩
  | SubprocOutcome.completed stdout rc =>
    match parse_fix_agent_output stdout session_id with
    | Except.error e => Except.error e
    | Except.ok new_session_id =>
      match extract_text_from_output stdout with
      | Except.error e => Except.error e
      | Except.ok output =>
        Except.ok
          ⟨rc == 0,
           if editIndicator output then detect_files output else [],
           if 500 < output.data.length then pyTakeRight 500 output else output,
           new_session_id⟩

/-! ## The executor invocation (`run_skill_test`, lines 106–286) -/

/-- `run_skill_test` around its subprocess call (lines 236–286), as a
function of the `fix_context` flag and the subprocess outcome: a timeout
or an invocation error is caught and reported as `(False, None)`; on
completion, fix-context mode parses stdout via `parse_fix_context`,
otherwise pass/fail is the exit code. -/
def run_skill_test (fix_context : Bool) (outcome : SubprocOutcome) : Bool × Option JVal :=
  match outcome with
  | SubprocOutcome.timeout => (false, none)
  | SubprocOutcome.error _ => (false, none)
  | SubprocOutcome.completed stdout rc =>
    if fix_context then parse_fix_context stdout
    else (rc == 0, none)

/-! ## CLI validation (`main`, lines 603–663) -/

/-- The ambient world `main` consults: the process environment, filesystem
existence, and the default skills base directory (the parent of the
as-demo checkout). -/
structure World where
  environ : String → Option String
  pathExists : String → Bool
  as_demo_parent : String

/-- `SKILLS_BASE_PATH` (line 33): the `SKILLS_BASE_PATH` environment
variable, or the as-demo parent directory. -/
def SKILLS_BASE_PATH (w : World) : String :=
  match w.environ "SKILLS_BASE_PATH" with
  | some v => v
  | none => w.as_demo_parent

/-- `get_skills_path` (lines 75–91): the platform's `*_SKILLS_PATH`
variable when present in the environment, else the base path joined with
the default subdirectory (`none` for an unknown platform, where the
source raises `ValueError`). -/
def get_skills_path (w : World) (platform : String) : Option String :=
  match PLATFORM_CONFIG platform with
  | none => none
  | some cfg =>
    match w.environ cfg.skills_path_env with
    | some v => some v
    | none => some (SKILLS_BASE_PATH w ++ "/" ++ cfg.default_subdir)

/-- The plugin-path check of `main` (lines 637–644): the plugin directory
exists under `plugins/` or at the repository root. -/
def pluginFound (w : World) (p : String) : Bool :=
  match PLATFORM_CONFIG p, get_skills_path w p with
  | some cfg, some sp =>
    w.pathExists (sp ++ "/plugins/" ++ cfg.plugin_name)
      || w.pathExists (sp ++ "/" ++ cfg.plugin_name)
  | _, _ => false

/-- The first entry of the platform's `env_vars` (line 649). -/
def primaryEnvOf (p : String) : String :=
  match PLATFORM_CONFIG p with
  | some cfg => cfg.env_vars.headD ""
  | none => ""

/-- Truthiness of `os.environ.get(primary_env)` (line 650). -/
def credSet (w : World) (p : String) : Bool :=
  match w.environ (primaryEnvOf p) with
  | some v => v != ""
  | none => false

/-- What `main` does before invoking the refinement loop. -/
inductive MainOutcome where
  | exitNonZero (code : Nat) (platform : String)
  | proceedToLoop (credWarnings : List String)

/-- The setup validation of `main` (lines 631–651): `sys.exit(1)` at the
first required platform whose plugin path is missing; otherwise print a
warning for every required platform whose primary credential is unset and
proceed to `run_refinement_loop`. -/
def main_validate (platform : String) (w : World) : MainOutcome :=
  match (get_required_platforms platform).find? (fun p => ! pluginFound w p) with
  | some p => MainOutcome.exitNonZero 1 p
  | none =>
    MainOutcome.proceedToLoop
      ((get_required_platforms platform).filter (fun p => ! credSet w p))

/-! ## Concrete inputs for witnesses and counterexamples -/

/-- A well-formed fix context with a given prompt index and suggestion. -/
def mkCtx (k : Option Int) (sugg : String) : FixCtx :=
  ⟨k, "create a page", "create_page", "[]", "[]", "good", "0.5", "judged", sugg, [], []⟩

/-- Environment A: attempt 1 fails with context at prompt 2, attempt 2
fails with no context, attempt 3 fails with context at prompt 0. -/
def envA : LoopEnv :=
  ⟨fun a =>
    if a == 1 then ⟨false, some (mkCtx (some 2) "tweak description")⟩
    else if a == 2 then ⟨false, none⟩
    else ⟨false, some (mkCtx (some 0) "rewrite example")⟩,
   fun _ => ⟨false, ["skills/page.md"], "changed it", some (JVal.str "sess-1")⟩⟩

/-- Environment B: attempt 1 fails with context, attempt 2 passes. -/
def envB : LoopEnv :=
  ⟨fun a =>
    if a == 1 then ⟨false, some (mkCtx (some 1) "fix assertion")⟩
    else ⟨true, none⟩,
   fun _ => ⟨true, [], "done", some (JVal.str "sess-2")⟩⟩

/-- Environment C: attempt 1 fails with no context, attempt 2 fails with
context (used to exhibit that degraded attempts are not recorded). -/
def envC : LoopEnv :=
  ⟨fun a =>
    if a == 1 then ⟨false, none⟩
    else ⟨false, some (mkCtx (some 1) "retry")⟩,
   fun _ => ⟨false, [], "noop", none⟩⟩

/-- Environment D: attempts 1 and 2 both fail with context (two
consecutive fix invocations). -/
def envD : LoopEnv :=
  ⟨fun a =>
    if a == 1 then ⟨false, some (mkCtx (some 3) "first failure")⟩
    else ⟨false, some (mkCtx (some 4) "second failure")⟩,
   fun a => ⟨false, ["lib/x.py"], "edited x", some (JVal.str ("sid-" ++ toString a))⟩⟩

/-- Environment E: attempt 1 fails with no context, attempt 2 fails with
context, attempt 3 passes. -/
def envE : LoopEnv :=
  ⟨fun a =>
    if a == 1 then ⟨false, none⟩
    else if a == 2 then ⟨false, some (mkCtx (some 2) "adjust skill")⟩
    else ⟨true, none⟩,
   fun _ => ⟨true, [], "ok", none⟩⟩

/-- A world in which every path exists but no environment variable is set
(plugins present, credentials missing). -/
def worldNoCreds : World :=
  ⟨fun _ => none, fun _ => true, "/home/dev"⟩

/-- A world in which no path exists (plugin directories missing). -/
def worldNoPaths : World :=
  ⟨fun _ => none, fun _ => false, "/home/dev"⟩

/-! ## Helper lemmas about the loop -/

/-- Every executor invocation's fork arguments are computed by `forkArgs`
from the recorded last failing index. -/
theorem loopGo_exec_fork (env : LoopEnv) :
    ∀ r a s, ∀ ev ∈ (loopGo env r a s).2, ∀ b last ff pi,
      ev = Event.execCall b last ff pi → (ff, pi) = forkArgs b last := by
  intro r
  induction r with
  | zero => intro a s ev hev; simp [loopGo] at hev
  | succ n ih =>
    intro a s ev hev b last ff pi he
    rcases hE : env.exec a with ⟨pass, ctx⟩
    cases pass
    · cases ctx with
      | none =>
        simp only [loopGo, hE] at hev
        rcases List.mem_cons.mp hev with h | h
        · subst he; cases h; rfl
        · exact ih _ _ ev h b last ff pi he
      | some c =>
        simp only [loopGo, hE] at hev
        rcases List.mem_cons.mp hev with h | h
        · subst he; cases h; rfl
        · rcases List.mem_cons.mp h with h2 | h2
          · subst he; cases h2
          · exact ih _ _ ev h2 b last ff pi he
    · simp only [loopGo, hE] at hev
      rcases List.mem_cons.mp hev with h | h
      · subst he; cases h; rfl
      · cases h

/-- State invariant: when the loop is entered at attempt `a + 1` with the
state produced by the first `a` attempts, every later executor invocation
records `idxAfter` of the preceding attempts, and every later fix
invocation receives `sidAfter` and `histAfter` of the preceding attempts
and corresponds to a context failure. -/
theorem loopGo_state_spec (env : LoopEnv) :
    ∀ r a s,
      s.lastFailingPromptIndex = idxAfter env a →
      s.fixSessionId = sidAfter env a →
      s.attemptHistory = histAfter env a →
      ∀ ev ∈ (loopGo env r (a + 1) s).2,
        (∀ b last ff pi, ev = Event.execCall b last ff pi →
            a + 1 ≤ b ∧ last = idxAfter env (b - 1)) ∧
        (∀ b sid h, ev = Event.fixCall b sid h →
            a + 1 ≤ b ∧ sid = sidAfter env (b - 1) ∧ h = histAfter env (b - 1) ∧
            ∃ c, env.exec b = ⟨false, some c⟩) := by
  intro r
  induction r with
  | zero => intro a s _ _ _ ev hev; simp [loopGo] at hev
  | succ n ih =>
    intro a s hI hS hH ev hev
    rcases hE : env.exec (a + 1) with ⟨pass, ctx⟩
    cases pass
    · cases ctx with
      | none =>
        simp only [loopGo, hE] at hev
        rcases List.mem_cons.mp hev with h | h
        · subst h
          constructor
          · intro b last ff pi he; cases he
            exact ⟨le_refl _, by simpa [Nat.add_sub_cancel] using hI⟩
          · intro b sid hh he; cases he
        · have ih' := ih (a + 1) s
            (by simp [idxAfter, hE, hI]) (by simp [sidAfter, hE, hS]) (by simp [histAfter, hE, hH])
            ev h
          refine ⟨fun b last ff pi he => ?_, fun b sid hh he => ?_⟩
          · obtain ⟨hb, h2⟩ := ih'.1 b last ff pi he
            exact ⟨le_trans (Nat.le_succ _) hb, h2⟩
          · obtain ⟨hb, h2⟩ := ih'.2 b sid hh he
            exact ⟨le_trans (Nat.le_succ _) hb, h2⟩
      | some c =>
        simp only [loopGo, hE] at hev
        rcases List.mem_cons.mp hev with h | h
        · subst h
          constructor
          · intro b last ff pi he; cases he
            exact ⟨le_refl _, by simpa [Nat.add_sub_cancel] using hI⟩
          · intro b sid hh he; cases he
        · rcases List.mem_cons.mp h with h2 | h2
          · subst h2
            constructor
            · intro b last ff pi he; cases he
            · intro b sid hh he; cases he
              refine ⟨le_refl _, by simpa [Nat.add_sub_cancel] using hS,
                by simpa [Nat.add_sub_cancel] using hH, c, hE⟩
          · have ih' := ih (a + 1)
              ⟨(env.fix (a + 1)).session_id,
               s.attemptHistory ++ [⟨a + 1, (env.fix (a + 1)).files_changed, "still failing",
                 pyTake 100 c.refinement_suggestion⟩],
               c.prompt_index⟩
              (by simp [idxAfter, hE]) (by simp [sidAfter, hE])
              (by simp [histAfter, hE, hH, recOf]) ev h2
            refine ⟨fun b last ff pi he => ?_, fun b sid hh he => ?_⟩
            · obtain ⟨hb, h3⟩ := ih'.1 b last ff pi he
              exact ⟨le_trans (Nat.le_succ _) hb, h3⟩
            · obtain ⟨hb, h3⟩ := ih'.2 b sid hh he
              exact ⟨le_trans (Nat.le_succ _) hb, h3⟩
    · simp only [loopGo, hE] at hev
      rcases List.mem_cons.mp hev with h | h
      · subst h
        constructor
        · intro b last ff pi he; cases he
          exact ⟨le_refl _, by simpa [Nat.add_sub_cancel] using hI⟩
        · intro b sid hh he; cases he
      · cases h

/-- Top-level form of `loopGo_state_spec` for `run_refinement_loop`. -/
theorem run_loop_events (env : LoopEnv) (max_attempts : Nat) :
    ∀ ev ∈ (run_refinement_loop env max_attempts).2,
      (∀ b last ff pi, ev = Event.execCall b last ff pi →
          1 ≤ b ∧ last = idxAfter env (b - 1)) ∧
      (∀ b sid h, ev = Event.fixCall b sid h →
          1 ≤ b ∧ sid = sidAfter env (b - 1) ∧ h = histAfter env (b - 1) ∧
          ∃ c, env.exec b = ⟨false, some c⟩) :=
  loopGo_state_spec env max_attempts 0 ⟨none, [], none⟩ rfl rfl rfl

/-- The loop performs at most `r` iterations. -/
theorem loopGo_count_le (env : LoopEnv) :
    ∀ r a s, execCount (loopGo env r a s).2 ≤ r := by
  intro r
  induction r with
  | zero => intro a s; simp [loopGo, execCount]
  | succ n ih =>
    intro a s
    rcases hE : env.exec a with ⟨pass, ctx⟩
    cases pass
    · cases ctx with
      | none =>
        simp only [loopGo, hE]
        simpa [execCount, List.countP_cons] using ih (a + 1) s
      | some c =>
        simp only [loopGo, hE]
        simpa [execCount, List.countP_cons] using ih (a + 1) _
    · simp [loopGo, hE, execCount, List.countP_cons]

/-- If every attempt in range fails, the loop runs all `r` iterations and
returns `false`. -/
theorem loopGo_all_fail (env : LoopEnv) :
    ∀ r a s, (∀ i, a ≤ i → i < a + r → (env.exec i).allPassed = false) →
      (loopGo env r a s).1 = false ∧ execCount (loopGo env r a s).2 = r := by
  intro r
  induction r with
  | zero => intro a s _; simp [loopGo, execCount]
  | succ n ih =>
    intro a s hfail
    have ha : (env.exec a).allPassed = false := hfail a (le_refl a) (by omega)
    rcases hE : env.exec a with ⟨pass, ctx⟩
    rw [hE] at ha; simp at ha; subst ha
    have hrec : ∀ i, a + 1 ≤ i → i < (a + 1) + n → (env.exec i).allPassed = false := by
      intro i h1 h2; exact hfail i (by omega) (by omega)
    cases ctx with
    | none =>
      have := ih (a + 1) s hrec
      simp only [loopGo, hE]
      simpa [execCount, List.countP_cons] using this
    | some c =>
      have := ih (a + 1)
        ⟨(env.fix a).session_id,
         s.attemptHistory ++ [⟨a, (env.fix a).files_changed, "still failing",
           pyTake 100 c.refinement_suggestion⟩],
         c.prompt_index⟩ hrec
      simp only [loopGo, hE]
      simpa [execCount, List.countP_cons] using this

/-- If attempt `a + j` is the first passing attempt, the loop returns
`true` after exactly `j + 1` iterations and never invokes the fix agent
at or after the passing attempt. -/
theorem loopGo_first_success (env : LoopEnv) :
    ∀ r a s j, j < r → (env.exec (a + j)).allPassed = true →
      (∀ i, a ≤ i → i < a + j → (env.exec i).allPassed = false) →
      (loopGo env r a s).1 = true ∧ execCount (loopGo env r a s).2 = j + 1 ∧
      (∀ b sid h, Event.fixCall b sid h ∈ (loopGo env r a s).2 → b < a + j) := by
  intro r
  induction r with
  | zero => intro a s j hj; omega
  | succ n ih =>
    intro a s j hj hpass hfail
    cases j with
    | zero =>
      have ha : (env.exec a).allPassed = true := by simpa using hpass
      rcases hE : env.exec a with ⟨pass, ctx⟩
      rw [hE] at ha; simp at ha; subst ha
      simp only [loopGo, hE]
      refine ⟨rfl, by simp [execCount, List.countP_cons], ?_⟩
      intro b sid h hmem
      rcases List.mem_cons.mp hmem with h1 | h1
      · cases h1
      · cases h1
    | succ j' =>
      have ha : (env.exec a).allPassed = false := hfail a (le_refl a) (by omega)
      rcases hE : env.exec a with ⟨pass, ctx⟩
      rw [hE] at ha; simp at ha; subst ha
      have hp' : (env.exec ((a + 1) + j')).allPassed = true := by
        have : (a + 1) + j' = a + (j' + 1) := by omega
        rw [this]; exact hpass
      have hf' : ∀ i, a + 1 ≤ i → i < (a + 1) + j' → (env.exec i).allPassed = false := by
        intro i h1 h2; exact hfail i (by omega) (by omega)
      cases ctx with
      | none =>
        obtain ⟨r1, r2, r3⟩ := ih (a + 1) s j' (by omega) hp' hf'
        simp only [loopGo, hE]
        refine ⟨r1, by simpa [execCount, List.countP_cons] using r2, ?_⟩
        intro b sid h hmem
        rcases List.mem_cons.mp hmem with h1 | h1
        · cases h1
        · have := r3 b sid h h1; omega
      | some c =>
        obtain ⟨r1, r2, r3⟩ := ih (a + 1)
          ⟨(env.fix a).session_id,
           s.attemptHistory ++ [⟨a, (env.fix a).files_changed, "still failing",
             pyTake 100 c.refinement_suggestion⟩],
           c.prompt_index⟩ j' (by omega) hp' hf'
        simp only [loopGo, hE]
        refine ⟨r1, by simpa [execCount, List.countP_cons] using r2, ?_⟩
        intro b sid h hmem
        rcases List.mem_cons.mp hmem with h1 | h1
        · cases h1
        · rcases List.mem_cons.mp h1 with h2 | h2
          · cases h2; omega
          · have := r3 b sid h h2; omega

/-- The session id passed to the first fix invocation is the state's, and
each later fix invocation receives exactly the session id returned by the
previous fix invocation. -/
theorem loopGo_fix_chain (env : LoopEnv) :
    ∀ r a s,
      (∀ x, (fixCalls (loopGo env r a s).2).head? = some x → x.2.1 = s.fixSessionId) ∧
      (∀ i x y, (fixCalls (loopGo env r a s).2).get? i = some x →
        (fixCalls (loopGo env r a s).2).get? (i + 1) = some y →
        y.2.1 = (env.fix x.1).session_id) := by
  intro r
  induction r with
  | zero =>
    intro a s
    constructor
    · intro x hx; simp [loopGo, fixCalls] at hx
    · intro i x y hx hy; simp [loopGo, fixCalls] at hx
  | succ n ih =>
    intro a s
    rcases hE : env.exec a with ⟨pass, ctx⟩
    cases pass
    · cases ctx with
      | none =>
        have hfc : fixCalls (loopGo env (n + 1) a s).2 = fixCalls (loopGo env n (a + 1) s).2 := by
          simp [loopGo, hE, fixCalls]
        rw [hfc]
        exact ih (a + 1) s
      | some c =>
        have hfc : fixCalls (loopGo env (n + 1) a s).2 =
            (a, s.fixSessionId, s.attemptHistory) ::
              fixCalls (loopGo env n (a + 1)
                ⟨(env.fix a).session_id,
                 s.attemptHistory ++ [⟨a, (env.fix a).files_changed, "still failing",
                   pyTake 100 c.refinement_suggestion⟩],
                 c.prompt_index⟩).2 := by
          simp [loopGo, hE, fixCalls]
        rw [hfc]
        constructor
        · intro x hx
          rw [List.head?_cons] at hx
          injection hx with hx
          subst hx; rfl
        · intro i x y hx hy
          cases i with
          | zero =>
            rw [List.get?_cons_zero] at hx
            injection hx with hx
            subst hx
            rw [List.get?_cons_succ] at hy
            have h0 : (fixCalls (loopGo env n (a + 1)
                ⟨(env.fix a).session_id,
                 s.attemptHistory ++ [⟨a, (env.fix a).files_changed, "still failing",
                   pyTake 100 c.refinement_suggestion⟩],
                 c.prompt_index⟩).2).head? = some y := by
              rw [← List.get?_zero]; exact hy
            have := (ih (a + 1) _).1 y h0
            simpa using this
          | succ i' =>
            rw [List.get?_cons_succ] at hx hy
            exact (ih (a + 1) _).2 i' x y hx hy
    · constructor
      · intro x hx; simp [loopGo, hE, fixCalls] at hx
      · intro i x y hx hy; simp [loopGo, hE, fixCalls] at hx

theorem range'_snoc : ∀ (s n : Nat), List.range' s (n + 1) = List.range' s n ++ [s + n] := by
  intro s n
  induction n generalizing s with
  | zero => simp [List.range']
  | succ m ih =>
    rw [List.range'_succ, ih (s + 1), List.range'_succ]
    simp [List.cons_append]
    omega

theorem histAfter_map_attempt (env : LoopEnv) :
    ∀ a, (histAfter env a).map (fun r => r.attempt) =
      (List.range' 1 a).filter (fun i => ctxFail env i) := by
  intro a
  induction a with
  | zero => simp [histAfter]
  | succ n ih =>
    rw [range'_snoc]
    rcases hE : env.exec (n + 1) with ⟨pass, ctx⟩
    cases pass
    · cases ctx with
      | none =>
        have hc : ctxFail env (n + 1) = false := by simp [ctxFail, hE]
        simp [histAfter, hE, List.filter_append, hc, ih, Nat.add_comm]
      | some c =>
        have hc : ctxFail env (n + 1) = true := by simp [ctxFail, hE]
        simp [histAfter, hE, List.filter_append, hc, ih, recOf, Nat.add_comm]
    · have hc : ctxFail env (n + 1) = false := by simp [ctxFail, hE]
      simp [histAfter, hE, List.filter_append, hc, ih, Nat.add_comm]

theorem histAfter_mem (env : LoopEnv) :
    ∀ a r, r ∈ histAfter env a →
      ∃ c, env.exec r.attempt = ⟨false, some c⟩ ∧ r = recOf env r.attempt c ∧
        1 ≤ r.attempt ∧ r.attempt ≤ a := by
  intro a
  induction a with
  | zero => intro r hr; simp [histAfter] at hr
  | succ n ih =>
    intro r hr
    rcases hE : env.exec (n + 1) with ⟨pass, ctx⟩
    cases pass
    · cases ctx with
      | none =>
        rw [histAfter, hE] at hr
        obtain ⟨c, h1, h2, h3, h4⟩ := ih r hr
        exact ⟨c, h1, h2, h3, by omega⟩
      | some c =>
        rw [histAfter, hE] at hr
        rcases List.mem_append.mp hr with h | h
        · obtain ⟨c2, h1, h2, h3, h4⟩ := ih r h
          exact ⟨c2, h1, h2, h3, by omega⟩
        · rcases List.mem_singleton.mp h with rfl
          exact ⟨c, by simpa [recOf] using hE, rfl, by simp [recOf], by simp [recOf]⟩
    · rw [histAfter, hE] at hr
      obtain ⟨c, h1, h2, h3, h4⟩ := ih r hr
      exact ⟨c, h1, h2, h3, by omega⟩

theorem loopGo_reaches (env : LoopEnv) :
    ∀ r a s b, a ≤ b → b < a + r →
      (∀ i, a ≤ i → i < b → (env.exec i).allPassed = false) →
      ∃ last ff pi, Event.execCall b last ff pi ∈ (loopGo env r a s).2 := by
  intro r
  induction r with
  | zero => intro a s b h1 h2; omega
  | succ n ih =>
    intro a s b hab hbr hfail
    rcases Nat.eq_or_lt_of_le hab with heq | hlt
    · subst heq
      rcases hE : env.exec a with ⟨pass, ctx⟩
      cases pass
      · cases ctx with
        | none =>
          refine ⟨s.lastFailingPromptIndex, (forkArgs a s.lastFailingPromptIndex).1,
            (forkArgs a s.lastFailingPromptIndex).2, ?_⟩
          simp only [loopGo, hE]
          exact List.mem_cons_self _ _
        | some c =>
          refine ⟨s.lastFailingPromptIndex, (forkArgs a s.lastFailingPromptIndex).1,
            (forkArgs a s.lastFailingPromptIndex).2, ?_⟩
          simp only [loopGo, hE]
          exact List.mem_cons_self _ _
      · refine ⟨s.lastFailingPromptIndex, (forkArgs a s.lastFailingPromptIndex).1,
          (forkArgs a s.lastFailingPromptIndex).2, ?_⟩
        simp only [loopGo, hE]
        exact List.mem_cons_self _ _
    · have ha : (env.exec a).allPassed = false := hfail a (le_refl a) hlt
      rcases hE : env.exec a with ⟨pass, ctx⟩
      rw [hE] at ha; simp at ha; subst ha
      have hrec : ∀ i, a + 1 ≤ i → i < b → (env.exec i).allPassed = false := by
        intro i h1 h2; exact hfail i (by omega) h2
      cases ctx with
      | none =>
        obtain ⟨last, ff, pi, hmem⟩ := ih (a + 1) s b hlt (by omega) hrec
        refine ⟨last, ff, pi, ?_⟩
        simp only [loopGo, hE]
        exact List.mem_cons_of_mem _ hmem
      | some c =>
        obtain ⟨last, ff, pi, hmem⟩ := ih (a + 1)
          ⟨(env.fix a).session_id,
           s.attemptHistory ++ [⟨a, (env.fix a).files_changed, "still failing",
             pyTake 100 c.refinement_suggestion⟩],
           c.prompt_index⟩ b hlt (by omega) hrec
        refine ⟨last, ff, pi, ?_⟩
        simp only [loopGo, hE]
        exact List.mem_cons_of_mem _ (List.mem_cons_of_mem _ hmem)

theorem loopGo_mem_exec_prefix_fail (env : LoopEnv) :
    ∀ r a s b last ff pi, Event.execCall b last ff pi ∈ (loopGo env r a s).2 →
      ∀ i, a ≤ i → i < b → (env.exec i).allPassed = false := by
  intro r
  induction r with
  | zero => intro a s b last ff pi hmem; simp [loopGo] at hmem
  | succ n ih =>
    intro a s b last ff pi hmem i h1 h2
    rcases hE : env.exec a with ⟨pass, ctx⟩
    cases pass
    · cases ctx with
      | none =>
        simp only [loopGo, hE] at hmem
        rcases List.mem_cons.mp hmem with h | h
        · cases h; omega
        · rcases Nat.eq_or_lt_of_le h1 with heq | hlt
          · subst heq; rw [hE]
          · exact ih (a + 1) s b last ff pi h i hlt h2
      | some c =>
        simp only [loopGo, hE] at hmem
        rcases List.mem_cons.mp hmem with h | h
        · cases h; omega
        · rcases List.mem_cons.mp h with h3 | h3
          · cases h3
          · rcases Nat.eq_or_lt_of_le h1 with heq | hlt
            · subst heq; rw [hE]
            · exact ih (a + 1) _ b last ff pi h3 i hlt h2
    · simp only [loopGo, hE] at hmem
      rcases List.mem_cons.mp hmem with h | h
      · cases h; omega
      · cases h

theorem strConcat_mem (g : AttemptRec → String) :
    ∀ (hs : List AttemptRec) r, r ∈ hs →
      ∃ x y, strConcat (hs.map g) = x ++ (g r ++ y) := by
  intro hs
  induction hs with
  | nil => intro r hr; cases hr
  | cons a l ih =>
    intro r hr
    rcases List.mem_cons.mp hr with rfl | h
    · refine ⟨"", strConcat (l.map g), ?_⟩
      simp [strConcat]
    · obtain ⟨x, y, hxy⟩ := ih r h
      refine ⟨g a ++ x, y, ?_⟩
      simp [strConcat, hxy, String.append_assoc]

theorem prompt_contains_entry (sp : String → String) (platform : String) (f : FixCtx)
    (hs : List AttemptRec) (r : AttemptRec) (hr : r ∈ hs) :
    containsSubstr (build_fix_prompt sp platform f hs) (renderAttemptEntry r) := by
  obtain ⟨x, y, hxy⟩ := strConcat_mem renderAttemptEntry hs r hr
  have hne : hs.isEmpty = false := by
    cases hs
    · cases hr
    · rfl
  refine ⟨promptPre sp platform f ++ ("\n## Previous Fix Attempts (this session)\n" ++ x),
    y ++ promptTask, ?_⟩
  rw [build_fix_prompt, renderAttemptHistory, hne]
  simp [hxy, String.append_assoc]

theorem extract_strategy_eq (raw : String) :
    parse_fix_context raw =
      (match extractJsonObj raw with
       | some (JVal.obj fs) =>
         if statusAllPassed fs then (true, (none : Option JVal)) else (false, some (JVal.obj fs))
       | _ => (false, (none : Option JVal))) := by
  unfold parse_fix_context extractJsonObj
  cases h1 : json_loads (pyStrip raw) with
  | none =>
    cases h2 : firstBraceSuffix (pyStrip raw) with
    | none => rfl
    | some sub =>
      cases h3 : json_loads sub with
      | none => simp [h3]
      | some v2 => cases v2 <;> simp [h3]
  | some v =>
    cases v
    case obj fs => rfl
    all_goals
      cases h2 : firstBraceSuffix (pyStrip raw) with
      | none => rfl
      | some sub =>
        cases h3 : json_loads sub with
        | none => simp [h3]
        | some v2 => cases v2 <;> simp [h3]

/-- Claim C1: for every refinement run and every attempt after the first,
if the recorded last failing prompt index is `k > 0` the executor is
invoked with fork point `k - 1` and resume prompt index `k`; if it is `0`
the executor is invoked with no fork offset and prompt index `0` (from the
start); if it is unknown the executor is invoked with no fork offset and
no prompt index (a full run from the beginning). -/
theorem c1_fork_point_and_resume (env : LoopEnv) (max_attempts : Nat)
    (b : Nat) (last ff pi : Option Int)
    (hmem : Event.execCall b last ff pi ∈ (run_refinement_loop env max_attempts).2)
    (hb : 2 ≤ b) :
    (∀ k : Int, last = some k → 0 < k → ff = some (k - 1) ∧ pi = some k) ∧
    (last = some 0 → ff = none ∧ pi = some 0) ∧
    (last = none → ff = none ∧ pi = none) := by
  have hmem' : Event.execCall b last ff pi ∈ (loopGo env max_attempts 1 ⟨none, [], none⟩).2 := hmem
  have h := loopGo_exec_fork env max_attempts 1 ⟨none, [], none⟩ _ hmem' b last ff pi rfl
  simp only [forkArgs] at h
  rw [if_pos (show 1 < b by omega)] at h
  refine ⟨?_, ?_, ?_⟩
  · intro k hk hkpos
    rw [hk] at h
    simp [hkpos] at h
    exact ⟨h.1, h.2⟩
  · intro h0
    rw [h0] at h
    simp at h
    exact ⟨h.1, h.2⟩
  · intro hn
    rw [hn] at h
    simp at h
    exact ⟨h.1, h.2⟩

/-- Witness for C1: in environment A attempt 1 fails at prompt index 2,
so attempt 2 is invoked with fork point 1 and resume prompt index 2. -/
theorem c1_fork_point_and_resume_witness :
    Event.execCall 2 (some 2) (some 1) (some 2) ∈ (run_refinement_loop envA 3).2 ∧
    (some (1 : Int), some (2 : Int)) = (some ((2 : Int) - 1), some (2 : Int)) := by
  have hmem : Event.execCall 2 (some 2) (some 1) (some 2) ∈ (run_refinement_loop envA 3).2 := by
    have ht : (run_refinement_loop envA 3).2 =
        [Event.execCall 1 none none none,
         Event.fixCall 1 none [],
         Event.execCall 2 (some 2) (some 1) (some 2),
         Event.execCall 3 (some 2) (some 1) (some 2),
         Event.fixCall 3 (some (JVal.str "sess-1"))
           [⟨1, ["skills/page.md"], "still failing", "tweak description"⟩]] := rfl
    rw [ht]
    exact List.mem_cons_of_mem _ (List.mem_cons_of_mem _ (List.mem_cons_self _ _))
  have h := (c1_fork_point_and_resume envA 3 2 (some 2) (some 1) (some 2) hmem (by norm_num)).1
    2 rfl (by norm_num)
  exact ⟨hmem, by rw [h.1, h.2]⟩

/-- Claim C2: with `maxAttempts ≥ 1` the loop performs at most
`maxAttempts` iterations; if no attempt passes it performs exactly
`maxAttempts` iterations and returns failure; on the first passing
attempt it returns success immediately, with no further iterations and no
fix invocation at or after the passing attempt. -/
theorem c2_attempt_bound (env : LoopEnv) (max_attempts : Nat) (_hmax : 1 ≤ max_attempts) :
    execCount (run_refinement_loop env max_attempts).2 ≤ max_attempts ∧
    ((∀ i, 1 ≤ i → i ≤ max_attempts → (env.exec i).allPassed = false) →
      (run_refinement_loop env max_attempts).1 = false ∧
      execCount (run_refinement_loop env max_attempts).2 = max_attempts) ∧
    (∀ a, 1 ≤ a → a ≤ max_attempts → (env.exec a).allPassed = true →
      (∀ i, 1 ≤ i → i < a → (env.exec i).allPassed = false) →
      (run_refinement_loop env max_attempts).1 = true ∧
      execCount (run_refinement_loop env max_attempts).2 = a ∧
      (∀ b sid h, Event.fixCall b sid h ∈ (run_refinement_loop env max_attempts).2 → b < a)) := by
  refine ⟨loopGo_count_le env max_attempts 1 ⟨none, [], none⟩, ?_, ?_⟩
  · intro hfail
    exact loopGo_all_fail env max_attempts 1 ⟨none, [], none⟩
      (fun i h1 h2 => hfail i h1 (by omega))
  · intro a ha1 ha2 hpass hprev
    have h1a : 1 + (a - 1) = a := by omega
    have hp : (env.exec (1 + (a - 1))).allPassed = true := by rw [h1a]; exact hpass
    have hf : ∀ i, 1 ≤ i → i < 1 + (a - 1) → (env.exec i).allPassed = false := by
      intro i hi1 hi2; exact hprev i hi1 (by omega)
    obtain ⟨r1, r2, r3⟩ := loopGo_first_success env max_attempts 1 ⟨none, [], none⟩ (a - 1)
      (by omega) hp hf
    refine ⟨r1, ?_, ?_⟩
    · have hc : execCount (run_refinement_loop env max_attempts).2 = a - 1 + 1 := r2
      omega
    · intro b sid h hm
      have := r3 b sid h hm
      omega

/-- Witness for C2: in environment B attempt 1 fails and attempt 2 is the
first passing attempt, so the loop returns success after exactly 2
iterations with no fix invocation at or after attempt 2. -/
theorem c2_attempt_bound_witness :
    (run_refinement_loop envB 2).1 = true ∧
    execCount (run_refinement_loop envB 2).2 = 2 := by
  have h := (c2_attempt_bound envB 2 (by norm_num)).2.2 2 (by norm_num) (le_refl 2) rfl
    (fun i h1 h2 => by
      have : i = 1 := by omega
      subst this; rfl)
  exact ⟨h.1, h.2.1⟩

/-- Claim C10 (implicit): the recorded last failing prompt index equals
the prompt index of the most recent attempt that failed with context
(`idxAfter`), every executor invocation computes its fork arguments from
that recorded value, and when no attempt has yet produced context the
executor is invoked with no fork offset and no prompt index. -/
theorem c10_last_index_tracking (env : LoopEnv) (max_attempts : Nat)
    (b : Nat) (last ff pi : Option Int)
    (hmem : Event.execCall b last ff pi ∈ (run_refinement_loop env max_attempts).2) :
    last = idxAfter env (b - 1) ∧
    (ff, pi) = forkArgs b last ∧
    (idxAfter env (b - 1) = none → ff = none ∧ pi = none) := by
  have hmem' : Event.execCall b last ff pi ∈ (loopGo env max_attempts 1 ⟨none, [], none⟩).2 := hmem
  have h1 := (run_loop_events env max_attempts _ hmem).1 b last ff pi rfl
  have h2 := loopGo_exec_fork env max_attempts 1 ⟨none, [], none⟩ _ hmem' b last ff pi rfl
  refine ⟨h1.2, h2, ?_⟩
  · intro hidx
    have hlast : last = none := by rw [h1.2, hidx]
    rw [hlast] at h2
    have hfa : forkArgs b none = (none, none) := by
      unfold forkArgs
      by_cases hb : 1 < b <;> simp [hb]
    rw [hfa] at h2
    rw [Prod.ext_iff] at h2
    exact ⟨h2.1, h2.2⟩

/-- Witness for C10: in environment A attempt 2 fails with no context, yet
attempt 3 is still invoked with the index recorded by attempt 1
(`idxAfter envA 2 = some 2`) and forks from checkpoint 1. -/
theorem c10_last_index_tracking_witness :
    Event.execCall 3 (some 2) (some 1) (some 2) ∈ (run_refinement_loop envA 3).2 ∧
    (some (2 : Int)) = idxAfter envA 2 ∧
    envA.exec 2 = ⟨false, none⟩ := by
  have hmem : Event.execCall 3 (some 2) (some 1) (some 2) ∈ (run_refinement_loop envA 3).2 := by
    have ht : (run_refinement_loop envA 3).2 =
        [Event.execCall 1 none none none,
         Event.fixCall 1 none [],
         Event.execCall 2 (some 2) (some 1) (some 2),
         Event.execCall 3 (some 2) (some 1) (some 2),
         Event.fixCall 3 (some (JVal.str "sess-1"))
           [⟨1, ["skills/page.md"], "still failing", "tweak description"⟩]] := rfl
    rw [ht]
    exact List.mem_cons_of_mem _ (List.mem_cons_of_mem _ (List.mem_cons_of_mem _
      (List.mem_cons_self _ _)))
  exact ⟨hmem, (c10_last_index_tracking envA 3 3 (some 2) (some 1) (some 2) hmem).1, rfl⟩

/-- Claim C4: the continuation token passed to each fix invocation after
the first is exactly the `session_id` returned by the immediately
preceding fix invocation; in particular, when the preceding invocation
returned no new token (the same token it was passed), the token is passed
on unchanged. -/
theorem c4_session_token_threading (env : LoopEnv) (max_attempts : Nat)
    (i b b2 : Nat) (sid sid2 : Option JVal) (h h2 : List AttemptRec)
    (hx : (fixCalls (run_refinement_loop env max_attempts).2).get? i = some (b, sid, h))
    (hy : (fixCalls (run_refinement_loop env max_attempts).2).get? (i + 1) = some (b2, sid2, h2)) :
    sid2 = (env.fix b).session_id ∧ ((env.fix b).session_id = sid → sid2 = sid) := by
  have hx' : (fixCalls (loopGo env max_attempts 1 ⟨none, [], none⟩).2).get? i
      = some (b, sid, h) := hx
  have hy' : (fixCalls (loopGo env max_attempts 1 ⟨none, [], none⟩).2).get? (i + 1)
      = some (b2, sid2, h2) := hy
  have hc := (loopGo_fix_chain env max_attempts 1 ⟨none, [], none⟩).2 i (b, sid, h) (b2, sid2, h2)
    hx' hy'
  simp only at hc
  exact ⟨hc, fun he => by rw [hc, he]⟩

/-- Witness for C4: in environment D the first fix invocation (attempt 1)
returns token `sid-1`, and the second fix invocation (attempt 2) is passed
exactly that token. -/
theorem c4_session_token_threading_witness :
    (fixCalls (run_refinement_loop envD 2).2).get? 0 = some (1, none, []) ∧
    (fixCalls (run_refinement_loop envD 2).2).get? 1 =
      some (2, some (JVal.str "sid-1"), [⟨1, ["lib/x.py"], "still failing", "first failure"⟩]) ∧
    some (JVal.str "sid-1") = (envD.fix 1).session_id := by
  have hx : (fixCalls (run_refinement_loop envD 2).2).get? 0 = some (1, none, []) := rfl
  have hy : (fixCalls (run_refinement_loop envD 2).2).get? 1 =
      some (2, some (JVal.str "sid-1"), [⟨1, ["lib/x.py"], "still failing", "first failure"⟩]) := rfl
  exact ⟨hx, hy,
    (c4_session_token_threading envD 2 0 1 2 none (some (JVal.str "sid-1")) []
      [⟨1, ["lib/x.py"], "still failing", "first failure"⟩] hx hy).1⟩

/-- Claim C5 (amended): an attempt that fails with no failure context
causes no fix-agent invocation and leaves the attempt history untouched —
no fix invocation ever receives a history record for that attempt (the
source only logs an error) — and the loop continues to the next attempt
when attempts remain. -/
theorem c5_degraded_attempt_amended (env : LoopEnv) (max_attempts : Nat)
    (a : Nat) (last ff pi : Option Int)
    (hmem : Event.execCall a last ff pi ∈ (run_refinement_loop env max_attempts).2)
    (hfail : env.exec a = ⟨false, none⟩) :
    (∀ sid h, Event.fixCall a sid h ∉ (run_refinement_loop env max_attempts).2) ∧
    (∀ b sid h r, Event.fixCall b sid h ∈ (run_refinement_loop env max_attempts).2 →
      r ∈ h → r.attempt ≠ a) ∧
    (a < max_attempts → ∃ last2 ff2 pi2,
      Event.execCall (a + 1) last2 ff2 pi2 ∈ (run_refinement_loop env max_attempts).2) := by
  refine ⟨?_, ?_, ?_⟩
  · intro sid h hm
    obtain ⟨-, -, -, c, hc⟩ := (run_loop_events env max_attempts _ hm).2 a sid h rfl
    rw [hfail] at hc
    simp at hc
  · intro b sid h r hm hr hra
    obtain ⟨-, -, hh, -⟩ := (run_loop_events env max_attempts _ hm).2 b sid h rfl
    rw [hh] at hr
    obtain ⟨c, hc, -, -, -⟩ := histAfter_mem env (b - 1) r hr
    rw [hra, hfail] at hc
    simp at hc
  · intro hlt
    have h1 := (run_loop_events env max_attempts _ hmem).1 a last ff pi rfl
    have hprev := loopGo_mem_exec_prefix_fail env max_attempts 1 ⟨none, [], none⟩ a last ff pi hmem
    exact loopGo_reaches env max_attempts 1 ⟨none, [], none⟩ (a + 1) (by omega) (by omega)
      (fun i hi1 hi2 => by
        rcases Nat.lt_or_ge i a with hlt2 | hge
        · exact hprev i hi1 hlt2
        · have : i = a := by omega
          subst this; rw [hfail])

/-- Witness for C5 (amended): in environment C attempt 1 fails with no
context; the loop invokes no fix agent for attempt 1 and continues to
attempt 2. -/
theorem c5_degraded_attempt_amended_witness :
    envC.exec 1 = ⟨false, none⟩ ∧
    Event.execCall 1 none none none ∈ (run_refinement_loop envC 2).2 ∧
    (∀ sid h, Event.fixCall 1 sid h ∉ (run_refinement_loop envC 2).2) ∧
    (∃ last2 ff2 pi2, Event.execCall 2 last2 ff2 pi2 ∈ (run_refinement_loop envC 2).2) := by
  have hmem : Event.execCall 1 none none none ∈ (run_refinement_loop envC 2).2 := by
    have ht : (run_refinement_loop envC 2).2 =
        [Event.execCall 1 none none none,
         Event.execCall 2 none none none,
         Event.fixCall 2 none []] := rfl
    rw [ht]
    exact List.mem_cons_self _ _
  have h := c5_degraded_attempt_amended envC 2 1 none none none hmem rfl
  exact ⟨rfl, hmem, h.1, h.2.2 (by norm_num)⟩

/-- Counterexample for C5: in environment C attempt 1 fails with no
context; the loop does continue without invoking the fix agent, but it
records nothing — the fix invocation at attempt 2 receives an empty
history, so no degraded attempt record for attempt 1 exists anywhere in
the run, contradicting "records a degraded attempt in the attempt
history". -/
theorem c5_counterexample :
    (run_refinement_loop envC 2).2 =
      [Event.execCall 1 none none none,
       Event.execCall 2 none none none,
       Event.fixCall 2 none []] ∧
    hasExecCallFor (run_refinement_loop envC 2).2 1 = true ∧
    hasFixCallFor (run_refinement_loop envC 2).2 1 = false ∧
    historiesMention (run_refinement_loop envC 2).2 1 = false :=
  ⟨rfl, rfl, rfl, rfl⟩

/-- Claim C6 (amended): the history passed to each fix invocation contains
exactly one record per prior attempt that failed with context, in attempt
order, each labelled "still failing" with the files recorded for that
attempt's fix invocation, and every record is rendered into the repair
prompt. -/
theorem c6_attempt_history_amended (env : LoopEnv) (max_attempts : Nat)
    (b : Nat) (sid : Option JVal) (h : List AttemptRec)
    (hmem : Event.fixCall b sid h ∈ (run_refinement_loop env max_attempts).2) :
    h = histAfter env (b - 1) ∧
    h.map (fun r => r.attempt) = (List.range' 1 (b - 1)).filter (fun i => ctxFail env i) ∧
    (∀ r ∈ h, r.result = "still failing" ∧ r.files = (env.fix r.attempt).files_changed) ∧
    (∀ (sp : String → String) (platform : String) (f : FixCtx) (r : AttemptRec), r ∈ h →
      containsSubstr (build_fix_prompt sp platform f h) (renderAttemptEntry r)) := by
  obtain ⟨-, -, hh, -⟩ := (run_loop_events env max_attempts _ hmem).2 b sid h rfl
  refine ⟨hh, ?_, ?_, ?_⟩
  · rw [hh]; exact histAfter_map_attempt env (b - 1)
  · intro r hr
    rw [hh] at hr
    obtain ⟨c, hc, hrec, -, -⟩ := histAfter_mem env (b - 1) r hr
    rcases r with ⟨ra, rf, rr, re⟩
    simp [recOf] at hrec
    exact ⟨hrec.2.1, hrec.1⟩
  · intro sp platform f r hr
    exact prompt_contains_entry sp platform f h r hr

/-- Witness for C6 (amended): in environment D the fix invocation at
attempt 2 receives exactly the record of attempt 1 (the only prior
context-failing attempt), and that record is rendered into the repair
prompt. -/
theorem c6_attempt_history_amended_witness :
    Event.fixCall 2 (some (JVal.str "sid-1"))
      [⟨1, ["lib/x.py"], "still failing", "first failure"⟩] ∈ (run_refinement_loop envD 2).2 ∧
    ([⟨1, ["lib/x.py"], "still failing", "first failure"⟩] : List AttemptRec).map
      (fun r => r.attempt) = (List.range' 1 1).filter (fun i => ctxFail envD i) ∧
    containsSubstr
      (build_fix_prompt (fun _ => "/skills") "confluence" (mkCtx none "")
        [⟨1, ["lib/x.py"], "still failing", "first failure"⟩])
      (renderAttemptEntry ⟨1, ["lib/x.py"], "still failing", "first failure"⟩) := by
  have hmem : Event.fixCall 2 (some (JVal.str "sid-1"))
      [⟨1, ["lib/x.py"], "still failing", "first failure"⟩] ∈ (run_refinement_loop envD 2).2 := by
    have ht : (run_refinement_loop envD 2).2 =
        [Event.execCall 1 none none none,
         Event.fixCall 1 none [],
         Event.execCall 2 (some 3) (some 2) (some 3),
         Event.fixCall 2 (some (JVal.str "sid-1"))
           [⟨1, ["lib/x.py"], "still failing", "first failure"⟩]] := rfl
    rw [ht]
    exact List.mem_cons_of_mem _ (List.mem_cons_of_mem _ (List.mem_cons_of_mem _
      (List.mem_cons_self _ _)))
  have h := c6_attempt_history_amended envD 2 2 (some (JVal.str "sid-1"))
    [⟨1, ["lib/x.py"], "still failing", "first failure"⟩] hmem
  exact ⟨hmem, h.2.1, h.2.2.2 (fun _ => "/skills") "confluence" (mkCtx none "")
    ⟨1, ["lib/x.py"], "still failing", "first failure"⟩ (List.mem_cons_self _ _)⟩

/-- Counterexample for C6: in environment E attempt 1 is a prior attempt
of the run (it failed with no context), yet the fix invocation at attempt
2 receives a history with no entry for attempt 1 — the history does not
contain one entry for *every* prior attempt. -/
theorem c6_counterexample :
    (run_refinement_loop envE 3).2 =
      [Event.execCall 1 none none none,
       Event.execCall 2 none none none,
       Event.fixCall 2 none [],
       Event.execCall 3 (some 2) (some 1) (some 2)] ∧
    hasExecCallFor (run_refinement_loop envE 3).2 1 = true ∧
    hasFixCallFor (run_refinement_loop envE 3).2 2 = true ∧
    historiesMention (run_refinement_loop envE 3).2 1 = false :=
  ⟨rfl, rfl, rfl, rfl⟩

/-- Claim C3 (amended): the executor-output extraction parses the trimmed
text as JSON and uses the result when it is a JSON *object* (pass signal
when `status == "all_passed"`); otherwise it parses the suffix from the
first `{` and uses the result when it is an object; otherwise it signals
no structured result, never raising.  The three example inputs behave as
the spec requires. -/
theorem c3_extraction_amended :
    (∀ raw, parse_fix_context raw =
      (match extractJsonObj raw with
       | some (JVal.obj fs) =>
         if statusAllPassed fs then (true, (none : Option JVal)) else (false, some (JVal.obj fs))
       | _ => (false, (none : Option JVal)))) ∧
    json_loads (pyStrip "\x7b\"status\": \"all_passed\"\x7d") =
      some (JVal.obj [("status", JVal.str "all_passed")]) ∧
    parse_fix_context "\x7b\"status\": \"all_passed\"\x7d" = (true, none) ∧
    parse_fix_context "some log line\n\x7b\"failure\": \x7b\"prompt_index\": 2\x7d\x7d" =
      (false, some (JVal.obj [("failure", JVal.obj [("prompt_index", JVal.num 2)])])) ∧
    parse_fix_context "not json at all" = (false, none) :=
  ⟨extract_strategy_eq, rfl, rfl, rfl, rfl⟩

/-- Counterexample for C3: on input `"42"` the spec's literal strategy
(step (a): parse the entire trimmed text as JSON) yields the parsed value
`42`, but the source treats a non-object whole-text parse as "no
structured result" and returns `(False, None)`. -/
theorem c3_counterexample :
    specExtractJson "42" = some (JVal.num 42) ∧
    parse_fix_context "42" = (false, none) ∧
    parse_fix_context "42" ≠ (false, some (JVal.num 42)) :=
  ⟨rfl, rfl, fun h => Option.noConfusion (congrArg Prod.snd h)⟩

/-- Claim C7 (amended): on a timeout of its hard timeout (300 s, distinct
from the executor's 600 s) or on an invocation error, `run_fix_agent`
catches the exception and returns a `FixResult` with `success = false`, an
explanatory summary, an empty changed-files list, and the caller's
continuation token unchanged.  (The no-raise guarantee does not extend to
output handling of a completed invocation: see the counterexample.) -/
theorem c7_fix_agent_error_handling (detect_files : String → List String)
    (session_id : Option JVal) (e : String) :
    run_fix_agent detect_files session_id SubprocOutcome.timeout =
      Except.ok ⟨false, [], "Fix agent timed out", session_id⟩ ∧
    run_fix_agent detect_files session_id (SubprocOutcome.error e) =
      Except.ok ⟨false, [], "Fix agent error: " ++ e, session_id⟩ ∧
    fix_agent_timeout_seconds ≠ executor_timeout_seconds :=
  ⟨rfl, rfl, by decide⟩

/-- Counterexample for C7: when the fix-agent invocation completes with
stdout `"[1]"` (valid JSON that is not an object),
`_parse_fix_agent_output` calls `.get` on a list and the uncaught
`AttributeError` escapes `run_fix_agent` — the call does raise past the
component boundary. -/
theorem c7_counterexample :
    run_fix_agent (fun _ => []) none (SubprocOutcome.completed "[1]" 0) =
      Except.error (PyError.attributeError "no attribute get") := rfl

/-- Claim C8: `run_skill_test` enforces a hard 600-second wall-clock
timeout on the whole execution, and a timeout or an invocation error is
caught and reported as a failed run with no fix context — never as
success and never by propagating the exception. -/
theorem c8_executor_timeout_handling (fix_context : Bool) (e : String) :
    run_skill_test fix_context SubprocOutcome.timeout = (false, none) ∧
    run_skill_test fix_context (SubprocOutcome.error e) = (false, none) ∧
    executor_timeout_seconds = 600 :=
  ⟨rfl, rfl, rfl⟩

/-- Claim C9 (amended): a missing plugin path for any required platform is
detected before the refinement loop starts and makes the process exit
with status 1 without running any attempt; a missing credential, however,
only produces a warning and the loop still runs. -/
theorem c9_setup_validation_amended (platform : String) (w : World) :
    ((∃ p ∈ get_required_platforms platform, pluginFound w p = false) →
      ∃ p, main_validate platform w = MainOutcome.exitNonZero 1 p) ∧
    ((∀ p ∈ get_required_platforms platform, pluginFound w p = true) →
      main_validate platform w =
        MainOutcome.proceedToLoop
          ((get_required_platforms platform).filter (fun p => ! credSet w p))) := by
  constructor
  · rintro ⟨p, hp, hpf⟩
    have hsome : ((get_required_platforms platform).find? (fun q => ! pluginFound w q)).isSome := by
      rw [List.find?_isSome]
      exact ⟨p, hp, by simp [hpf]⟩
    rcases hfind : (get_required_platforms platform).find? (fun q => ! pluginFound w q) with _ | q
    · rw [hfind] at hsome; simp at hsome
    · refine ⟨q, ?_⟩
      simp only [main_validate]
      rw [hfind]
  · intro hall
    have hnone : (get_required_platforms platform).find? (fun q => ! pluginFound w q) = none := by
      rw [List.find?_eq_none]
      intro x hx
      simp [hall x hx]
    simp only [main_validate]
    rw [hnone]

/-- Witness for C9 (amended): with every plugin directory missing,
validation for platform `confluence` exits with status 1 before the
loop. -/
theorem c9_setup_validation_amended_witness :
    pluginFound worldNoPaths "confluence" = false ∧
    (∃ p, main_validate "confluence" worldNoPaths = MainOutcome.exitNonZero 1 p) := by
  refine ⟨rfl, (c9_setup_validation_amended "confluence" worldNoPaths).1 ⟨"confluence", ?_, rfl⟩⟩
  rw [show get_required_platforms "confluence" = ["confluence"] from rfl]
  exact List.mem_cons_self _ _

/-- Counterexample for C9: with plugin directories present but the
required credential `CONFLUENCE_API_TOKEN` unset, `main` merely warns and
proceeds to the refinement loop instead of exiting non-zero. -/
theorem c9_counterexample :
    credSet worldNoCreds "confluence" = false ∧
    main_validate "confluence" worldNoCreds = MainOutcome.proceedToLoop ["confluence"] :=
  ⟨rfl, rfl⟩
